import Mathlib

/-!
Shallow embedding of the analytics core of the trading-journal repository
(the analytics module bundled in src/src/components/charts/SessionChart.tsx:
calculateStats, calculateSessionStats, calculateSetupStats,
calculateMonthlyPerformance, calculateEquityCurve, generateInsights),
together with theorems settling the frozen claims about it.

Modelling conventions:
- JavaScript numbers are modelled as rationals (the spec treats every numeric
  field as a decimal number); the one value that can be the IEEE infinity,
  profitFactor, is modelled by the explicit sum type PFVal.
- A Date object is modelled by the three observations the core makes of it:
  getTime (used for chronological sorting), getFullYear/getMonth (used for the
  monthly rollup key) and toLocaleDateString (used as an equity-point label).
- Array.prototype.sort with a date comparator is modelled by a stable
  insertion sort on the comparator relation.
- Array.prototype.reduce with initial value arr[0] folds over the whole array,
  the initial element included; it is modelled the same way here.
- The JavaScript expression (s || "N/A") on a string s is "N/A" exactly when
  s is the empty string; orNA models it.
- The insight strings are modelled by an inductive type carrying the numeric
  payloads that the source interpolates into each message; locale number
  formatting (toFixed) is a presentation detail outside the embedding.
-/

namespace TradingJournal

/-- Outcome of a trade: the result field, a union of the three string literals
Win, Loss and BE in the source. -/
inductive Outcome
  | Win
  | Loss
  | BE
deriving DecidableEq

/-- The five trading sessions, a closed union type in the source Trade model. -/
inductive Session
  | Asian
  | London
  | NY
  | PreNY
  | PostNY
deriving DecidableEq

/-- The string literal each Session member denotes in the source. -/
def Session.name : Session → String
  | .Asian => "Asian"
  | .London => "London"
  | .NY => "NY"
  | .PreNY => "Pre-NY"
  | .PostNY => "Post-NY"

/-- The six emotions, a closed union type in the source Trade model. -/
inductive Emotion
  | Calm
  | Fear
  | Greed
  | Impulsive
  | Overconfident
  | Disciplined
deriving DecidableEq

/-- Trade direction, the union Buy or Sell in the source. -/
inductive Direction
  | Buy
  | Sell
deriving DecidableEq

/-- A Date value, abstracted to the three observations the analytics core
makes of it: getTime for ordering, getFullYear and getMonth for the monthly
key, and toLocaleDateString for the equity-point label. -/
structure JSDate where
  time : Int
  year : Int
  month : Nat
  localeString : String
deriving DecidableEq

/-- The Trade record from the db module. -/
structure Trade where
  id : String
  accountId : String
  date : JSDate
  pair : String
  direction : Direction
  entry : Rat
  stopLoss : Rat
  takeProfit : Rat
  exitPrice : Rat
  result : Outcome
  rMultiple : Rat
  riskPercent : Rat
  riskAmount : Rat
  rewardAmount : Rat
  session : Session
  setupTag : String
  emotion : Emotion
  disciplineRating : Nat
  screenshot : Option String
  notes : String
deriving DecidableEq

/-- The value of the profitFactor field: either an ordinary number or the
IEEE positive infinity the source can produce. -/
inductive PFVal
  | val (q : Rat)
  | inf
deriving DecidableEq

/-- The TradingStats record. -/
structure TradingStats where
  totalTrades : Nat
  winRate : Rat
  avgR : Rat
  profitFactor : PFVal
  expectancy : Rat
  maxConsecutiveWins : Nat
  maxConsecutiveLosses : Nat
  maxDrawdown : Rat
  totalProfit : Rat
  totalLoss : Rat
  bestSession : String
  worstSession : String
  bestSetup : String
  worstSetup : String
deriving DecidableEq

/-- The SessionStats record. -/
structure SessionStats where
  session : String
  trades : Nat
  winRate : Rat
  avgR : Rat
  totalR : Rat
deriving DecidableEq

/-- The SetupStats record. -/
structure SetupStats where
  setup : String
  trades : Nat
  winRate : Rat
  avgR : Rat
  totalR : Rat
deriving DecidableEq

/-- The MonthlyPerformance record. -/
structure MonthlyPerformance where
  month : String
  profit : Rat
  trades : Nat
  winRate : Rat
deriving DecidableEq

/-- The EquityPoint record. -/
structure EquityPoint where
  date : String
  equity : Rat
  balance : Rat
deriving DecidableEq

/-- Chronologically ascending sort by date, modelling
sort((a, b) => new Date(a.date).getTime() - new Date(b.date).getTime()). -/
def sortByDateAsc (trades : List Trade) : List Trade :=
  List.insertionSort (fun a b => a.date.time ≤ b.date.time) trades

/-- Chronologically descending sort by date, modelling
sort((a, b) => new Date(b.date).getTime() - new Date(a.date).getTime()). -/
def sortByDateDesc (trades : List Trade) : List Trade :=
  List.insertionSort (fun a b => b.date.time ≤ a.date.time) trades

/-- trades.filter(t => t.result === Win). -/
def winsOf (trades : List Trade) : List Trade :=
  trades.filter (fun t => decide (t.result = Outcome.Win))

/-- trades.filter(t => t.result === Loss). -/
def lossesOf (trades : List Trade) : List Trade :=
  trades.filter (fun t => decide (t.result = Outcome.Loss))

/-- totalProfit: sum of rewardAmount over the wins. -/
def totalProfitOf (trades : List Trade) : Rat :=
  ((winsOf trades).map (fun t => t.rewardAmount)).sum

/-- totalLoss: absolute value of the sum of riskAmount over the losses. -/
def totalLossOf (trades : List Trade) : Rat :=
  abs (((lossesOf trades).map (fun t => t.riskAmount)).sum)

/-- profitFactor: totalLoss > 0 ? totalProfit / totalLoss
: totalProfit > 0 ? Infinity : 0. -/
def profitFactorOf (totalProfit totalLoss : Rat) : PFVal :=
  if 0 < totalLoss then PFVal.val (totalProfit / totalLoss)
  else if 0 < totalProfit then PFVal.inf
  else PFVal.val 0

/-- The streak loop of calculateStats: state is the current Win streak, the
current Loss streak and the two running maxima, exactly as the four mutable
variables of the source. -/
def streakGo : List Trade → Nat → Nat → Nat → Nat → Nat × Nat
  | [], _, _, mw, ml => (mw, ml)
  | t :: ts, cw, cl, mw, ml =>
    if t.result = Outcome.Win then
      streakGo ts (cw + 1) 0 (max mw (cw + 1)) ml
    else if t.result = Outcome.Loss then
      streakGo ts 0 (cl + 1) mw (max ml (cl + 1))
    else
      streakGo ts 0 0 mw ml

/-- Pair (maxConsecutiveWins, maxConsecutiveLosses) produced by the streak
loop started from all-zero state. -/
def streaksOf (l : List Trade) : Nat × Nat :=
  streakGo l 0 0 0 0

/-- The drawdown loop of calculateStats: peak, maxDrawdown and runningBalance
all start at 0 and each trade adds its rMultiple. -/
def ddGo : List Trade → Rat → Rat → Rat → Rat
  | [], _, mdd, _ => mdd
  | t :: ts, peak, mdd, rb =>
    let rb2 := rb + t.rMultiple
    let peak2 := max peak rb2
    ddGo ts peak2 (max mdd (peak2 - rb2)) rb2

/-- maxDrawdown of a chronologically sorted trade list. -/
def maxDrawdownWalk (l : List Trade) : Rat :=
  ddGo l 0 0 0

/-- Model of the JavaScript expression (s || "N/A"): the empty string is the
only falsy string. -/
def orNA (s : String) : String :=
  if s = "" then "N/A" else s

/-- The fixed session enumeration of calculateSessionStats, in declared
order. -/
def sessionNames : List String :=
  ["Asian", "London", "NY", "Pre-NY", "Post-NY"]

/-- The SessionStats record calculateSessionStats builds for one session. -/
def mkSessionStat (trades : List Trade) (s : String) : SessionStats :=
  let sessionTrades := trades.filter (fun t => decide (t.session.name = s))
  let wins := sessionTrades.filter (fun t => decide (t.result = Outcome.Win))
  let totalR := (sessionTrades.map (fun t => t.rMultiple)).sum
  { session := s
    trades := sessionTrades.length
    winRate := if 0 < sessionTrades.length then
        ((wins.length : Rat) / (sessionTrades.length : Rat)) * 100 else 0
    avgR := if 0 < sessionTrades.length then
        totalR / (sessionTrades.length : Rat) else 0
    totalR := totalR }

/-- calculateSessionStats: map the fixed enumeration, then drop zero-count
sessions. -/
def calculateSessionStats (trades : List Trade) : List SessionStats :=
  (sessionNames.map (mkSessionStat trades)).filter (fun s => decide (0 < s.trades))

/-- First-occurrence deduplication, modelling the new Set(...) spread of
calculateSetupStats (Set iteration order is insertion order). -/
def dedupFirst (seen : List String) : List String → List String
  | [] => []
  | a :: l => if a ∈ seen then dedupFirst seen l else a :: dedupFirst (a :: seen) l

/-- The distinct setup tags of the input, in first-seen order. -/
def setupTagsOf (trades : List Trade) : List String :=
  dedupFirst [] (trades.map (fun t => t.setupTag))

/-- The SetupStats record calculateSetupStats builds for one setup tag. -/
def mkSetupStat (trades : List Trade) (s : String) : SetupStats :=
  let setupTrades := trades.filter (fun t => decide (t.setupTag = s))
  let wins := setupTrades.filter (fun t => decide (t.result = Outcome.Win))
  let totalR := (setupTrades.map (fun t => t.rMultiple)).sum
  { setup := s
    trades := setupTrades.length
    winRate := if 0 < setupTrades.length then
        ((wins.length : Rat) / (setupTrades.length : Rat)) * 100 else 0
    avgR := if 0 < setupTrades.length then
        totalR / (setupTrades.length : Rat) else 0
    totalR := totalR }

/-- calculateSetupStats: map the discovered tags, then drop zero-count
buckets. -/
def calculateSetupStats (trades : List Trade) : List SetupStats :=
  ((setupTagsOf trades).map (mkSetupStat trades)).filter (fun s => decide (0 < s.trades))

/-- The reducer of the bestSession reduce call:
(best, curr) => curr.avgR > best.avgR ? curr : best. -/
def pickHigherSession (best curr : SessionStats) : SessionStats :=
  if best.avgR < curr.avgR then curr else best

/-- The reducer of the worstSession reduce call:
(worst, curr) => curr.avgR < worst.avgR ? curr : worst. -/
def pickLowerSession (worst curr : SessionStats) : SessionStats :=
  if curr.avgR < worst.avgR then curr else worst

/-- The reducer of the bestSetup reduce call. -/
def pickHigherSetup (best curr : SetupStats) : SetupStats :=
  if best.avgR < curr.avgR then curr else best

/-- The reducer of the worstSetup reduce call. -/
def pickLowerSetup (worst curr : SetupStats) : SetupStats :=
  if curr.avgR < worst.avgR then curr else worst

/-- The bestSession string of calculateStats: reduce with initial value
sessionStats[0] (the reduce visits every element, the initial one included;
on an empty array the optional chain plus the or-default yields "N/A"). -/
def bestSessionStr (trades : List Trade) : String :=
  match calculateSessionStats trades with
  | [] => "N/A"
  | h :: t => orNA (List.foldl pickHigherSession h (h :: t)).session

/-- The worstSession string of calculateStats. -/
def worstSessionStr (trades : List Trade) : String :=
  match calculateSessionStats trades with
  | [] => "N/A"
  | h :: t => orNA (List.foldl pickLowerSession h (h :: t)).session

/-- The bestSetup string of calculateStats (guarded by setupStats.length > 0
in the source, with the N/A fallback record otherwise). -/
def bestSetupStr (trades : List Trade) : String :=
  match calculateSetupStats trades with
  | [] => "N/A"
  | h :: t => orNA (List.foldl pickHigherSetup h (h :: t)).setup

/-- The worstSetup string of calculateStats. -/
def worstSetupStr (trades : List Trade) : String :=
  match calculateSetupStats trades with
  | [] => "N/A"
  | h :: t => orNA (List.foldl pickLowerSetup h (h :: t)).setup

/-- The zeroed placeholder record calculateStats returns on empty input. -/
def emptyStats : TradingStats :=
  { totalTrades := 0
    winRate := 0
    avgR := 0
    profitFactor := PFVal.val 0
    expectancy := 0
    maxConsecutiveWins := 0
    maxConsecutiveLosses := 0
    maxDrawdown := 0
    totalProfit := 0
    totalLoss := 0
    bestSession := "N/A"
    worstSession := "N/A"
    bestSetup := "N/A"
    worstSetup := "N/A" }

/-- The TradingStats record calculateStats builds for a non-empty input. -/
def statsNonempty (trades : List Trade) : TradingStats :=
  let totalProfit := totalProfitOf trades
  let totalLoss := totalLossOf trades
  let totalR := (trades.map (fun t => t.rMultiple)).sum
  let avgR := totalR / (trades.length : Rat)
  let sorted := sortByDateAsc trades
  let streaks := streaksOf sorted
  { totalTrades := trades.length
    winRate := (((winsOf trades).length : Rat) / (trades.length : Rat)) * 100
    avgR := avgR
    profitFactor := profitFactorOf totalProfit totalLoss
    expectancy := avgR
    maxConsecutiveWins := streaks.1
    maxConsecutiveLosses := streaks.2
    maxDrawdown := maxDrawdownWalk sorted
    totalProfit := totalProfit
    totalLoss := totalLoss
    bestSession := bestSessionStr trades
    worstSession := worstSessionStr trades
    bestSetup := bestSetupStr trades
    worstSetup := worstSetupStr trades }

/-- calculateStats with its early return on an empty collection. -/
def calculateStats (trades : List Trade) : TradingStats :=
  if trades = [] then emptyStats else statsNonempty trades

/-- padStart(2, "0") applied to the decimal rendering of a natural number. -/
def pad2 (n : Nat) : String :=
  if (toString n).length < 2 then "0" ++ toString n else toString n

/-- The monthKey template string of calculateMonthlyPerformance:
year, a dash, then the zero-padded month number. -/
def monthKey (d : JSDate) : String :=
  toString d.year ++ "-" ++ pad2 (d.month + 1)

/-- The per-month accumulator record of calculateMonthlyPerformance. -/
structure MRec where
  profit : Rat
  trades : Nat
  wins : Nat
deriving DecidableEq

/-- One loop iteration of calculateMonthlyPerformance: create the bucket of
the month of the trade if absent, then add the trade into it. The
association list preserves key insertion order, as string-keyed objects do. -/
def mpInsert (t : Trade) : List (String × MRec) → List (String × MRec)
  | [] => [(monthKey t.date,
      { profit := t.rMultiple
        trades := 1
        wins := if t.result = Outcome.Win then 1 else 0 })]
  | (k, r) :: rest =>
    if k = monthKey t.date then
      (k, { profit := r.profit + t.rMultiple
            trades := r.trades + 1
            wins := r.wins + (if t.result = Outcome.Win then 1 else 0) }) :: rest
    else
      (k, r) :: mpInsert t rest

/-- calculateMonthlyPerformance: bucket by month key, sort the entries by key
ascending, then emit the records with the unguarded winRate division. -/
def calculateMonthlyPerformance (trades : List Trade) : List MonthlyPerformance :=
  let entries := trades.foldl (fun m t => mpInsert t m) []
  let sorted := List.insertionSort (fun a b : String × MRec => a.1 ≤ b.1) entries
  sorted.map (fun e =>
    { month := e.1
      profit := e.2.profit
      trades := e.2.trades
      winRate := ((e.2.wins : Rat) / (e.2.trades : Rat)) * 100 })

/-- The balance increment of one trade in calculateEquityCurve:
rewardAmount - (result === Loss ? riskAmount : 0). The rewardAmount is added
unconditionally, whatever the outcome. -/
def tradeDelta (t : Trade) : Rat :=
  t.rewardAmount - (if t.result = Outcome.Loss then t.riskAmount else 0)

/-- The balance increment the specification describes for one trade:
(reward amount if outcome is Win else 0) minus (risk amount if outcome is
Loss else 0). Stated from the words of the spec for comparison with
tradeDelta, which is translated from the source. -/
def specTradeDelta (t : Trade) : Rat :=
  (if t.result = Outcome.Win then t.rewardAmount else 0)
    - (if t.result = Outcome.Loss then t.riskAmount else 0)

/-- The loop of calculateEquityCurve: one point per trade, carrying the
running balance. -/
def equityGo (startingBalance : Rat) : Rat → List Trade → List EquityPoint
  | _, [] => []
  | rb, t :: ts =>
    let rb2 := rb + tradeDelta t
    { date := t.date.localeString
      equity := rb2 - startingBalance
      balance := rb2 } :: equityGo startingBalance rb2 ts

/-- calculateEquityCurve: the synthetic Start point, then one point per trade
in chronological order. -/
def calculateEquityCurve (trades : List Trade) (startingBalance : Rat) : List EquityPoint :=
  { date := "Start", equity := 0, balance := startingBalance }
    :: equityGo startingBalance startingBalance (sortByDateAsc trades)

/-- The insight messages generateInsights can emit, one constructor per push
site, carrying the numeric payloads interpolated into the message. -/
inductive Insight
  | onboarding
  | bestSessionCallout (session : String) (winRate avgR : Rat)
  | worstSessionWarning (session : String) (avgR : Rat)
  | bestSetupCallout (setup : String) (avgR : Rat) (trades : Nat)
  | riskWarning (avgRisk : Rat)
  | consecLossWarning (n : Nat)
  | winRateGood (wr : Rat)
  | winRateBad (wr : Rat)
  | profitFactorGood (pf : PFVal)
  | emotionInsight (calmAvg impulsiveAvg : Rat)
deriving DecidableEq

/-- The comparison profitFactor >= 2 of the source, where the infinity
sentinel compares greater than every number. -/
def pfAtLeastTwo : PFVal → Bool
  | PFVal.inf => true
  | PFVal.val q => decide (2 ≤ q)

/-- Rule 1: best-session callout. -/
def ruleBestSession (trades : List Trade) (stats : TradingStats) : List Insight :=
  if stats.bestSession ≠ "N/A" then
    match (calculateSessionStats trades).find? (fun s => decide (s.session = stats.bestSession)) with
    | some best =>
        if 3 ≤ best.trades then
          [Insight.bestSessionCallout stats.bestSession best.winRate best.avgR]
        else []
    | none => []
  else []

/-- Rule 2: worst-session warning. -/
def ruleWorstSession (trades : List Trade) (stats : TradingStats) : List Insight :=
  if stats.worstSession ≠ "N/A" then
    match (calculateSessionStats trades).find? (fun s => decide (s.session = stats.worstSession)) with
    | some worst =>
        if 3 ≤ worst.trades ∧ worst.avgR < 0 then
          [Insight.worstSessionWarning stats.worstSession worst.avgR]
        else []
    | none => []
  else []

/-- Rule 3: best-setup callout. -/
def ruleBestSetup (trades : List Trade) (stats : TradingStats) : List Insight :=
  if stats.bestSetup ≠ "N/A" then
    match (calculateSetupStats trades).find? (fun s => decide (s.setup = stats.bestSetup)) with
    | some best =>
        if 3 ≤ best.trades then
          [Insight.bestSetupCallout stats.bestSetup best.avgR best.trades]
        else []
    | none => []
  else []

/-- Rule 4: risk-sizing warning on the mean risk percent. -/
def ruleRisk (trades : List Trade) : List Insight :=
  let avgRisk := ((trades.map (fun t => t.riskPercent)).sum) / (trades.length : Rat)
  if 2 < avgRisk then [Insight.riskWarning avgRisk] else []

/-- Number of losses among the five most-recently-dated trades. -/
def recentLossCount (trades : List Trade) : Nat :=
  (((sortByDateDesc trades).take 5).filter (fun t => decide (t.result = Outcome.Loss))).length

/-- Rule 5: consecutive-loss warning, gated first on the streak statistic
and then on the recent-window loss count. -/
def ruleConsecLoss (trades : List Trade) (stats : TradingStats) : List Insight :=
  if 3 ≤ stats.maxConsecutiveLosses then
    if 3 ≤ recentLossCount trades then
      [Insight.consecLossWarning stats.maxConsecutiveLosses]
    else []
  else []

/-- Rules 6 and 7: the win-rate if / else-if chain. -/
def ruleWinRate (trades : List Trade) (stats : TradingStats) : List Insight :=
  if 60 ≤ stats.winRate then [Insight.winRateGood stats.winRate]
  else if stats.winRate < 40 ∧ 10 ≤ trades.length then [Insight.winRateBad stats.winRate]
  else []

/-- Rule 8: profit-factor commendation. -/
def ruleProfitFactor (stats : TradingStats) : List Insight :=
  if pfAtLeastTwo stats.profitFactor then [Insight.profitFactorGood stats.profitFactor] else []

/-- Rule 9: the emotion comparison. A bucket exists exactly when some trade
carries the emotion; the or-chains are fallbacks, not unions. -/
def ruleEmotion (trades : List Trade) : List Insight :=
  let calmB := trades.filter (fun t => decide (t.emotion = Emotion.Calm))
  let discB := trades.filter (fun t => decide (t.emotion = Emotion.Disciplined))
  let calm := if calmB.isEmpty then discB else calmB
  let impB := trades.filter (fun t => decide (t.emotion = Emotion.Impulsive))
  let greedB := trades.filter (fun t => decide (t.emotion = Emotion.Greed))
  let imp := if impB.isEmpty then greedB else impB
  if calm.isEmpty ∨ imp.isEmpty then []
  else
    let calmAvg := ((calm.map (fun t => t.rMultiple)).sum) / (calm.length : Rat)
    let impAvg := ((imp.map (fun t => t.rMultiple)).sum) / (imp.length : Rat)
    if impAvg + 1 / 2 < calmAvg then [Insight.emotionInsight calmAvg impAvg] else []

/-- generateInsights: the early return on an empty collection, then the rule
pushes in source order. -/
def generateInsights (trades : List Trade) (stats : TradingStats) : List Insight :=
  if trades = [] then [Insight.onboarding]
  else
    ruleBestSession trades stats ++ ruleWorstSession trades stats
      ++ ruleBestSetup trades stats ++ ruleRisk trades
      ++ ruleConsecLoss trades stats ++ ruleWinRate trades stats
      ++ ruleProfitFactor stats ++ ruleEmotion trades

end TradingJournal

namespace TradingJournal

/-! Helper lemmas and sample records used by witnesses and counterexamples. -/

/-- A sample date: March 15, 2024 (month is the zero-based getMonth value). -/
def mkDate (n : Int) : JSDate :=
  { time := n, year := 2024, month := 2, localeString := "3/15/2024" }

/-- A sample winning trade. -/
def sampleWin : Trade :=
  { id := "t1", accountId := "a1", date := mkDate 0, pair := "EURUSD"
    direction := Direction.Buy, entry := 1, stopLoss := 0, takeProfit := 2
    exitPrice := 2, result := Outcome.Win, rMultiple := 2, riskPercent := 1
    riskAmount := 100, rewardAmount := 200, session := Session.London
    setupTag := "Breakout", emotion := Emotion.Calm, disciplineRating := 5
    screenshot := none, notes := "" }

/-- A sample losing trade with zero reward amount, as the entry form records
losses. -/
def sampleLoss : Trade :=
  { sampleWin with id := "t2", date := mkDate 1, result := Outcome.Loss
                   rMultiple := -1, rewardAmount := 0, exitPrice := 0 }

/-- A losing trade carrying a nonzero reward amount, a well-typed Trade value
the core accepts as input. -/
def lossWithReward : Trade :=
  { sampleWin with id := "t3", date := mkDate 2, result := Outcome.Loss
                   rMultiple := -1, rewardAmount := 200, exitPrice := 0 }

/-- calculateStats reduces to its non-empty branch on a non-empty input. -/
lemma calculateStats_ne_nil (trades : List Trade) (h : trades ≠ []) :
    calculateStats trades = statsNonempty trades := by
  simp [calculateStats, h]

/-- The drawdown loop never returns less than the running maximum it was
given. -/
lemma ddGo_le (l : List Trade) : ∀ peak mdd rb, mdd ≤ ddGo l peak mdd rb := by
  induction l with
  | nil => intro p m rb; simp [ddGo]
  | cons t ts ih =>
    intro p m rb
    simp only [ddGo]
    exact le_trans (le_max_left _ _) (ih _ _ _)

/-- C4: for every trade collection, whatever the sizes and r-multiples, the
maxDrawdown field of calculateStats is greater than or equal to 0. -/
theorem maxDrawdown_nonneg (trades : List Trade) :
    0 ≤ (calculateStats trades).maxDrawdown := by
  rcases eq_or_ne trades [] with rfl | h
  · simp [calculateStats, emptyStats]
  · rw [calculateStats_ne_nil trades h]
    exact ddGo_le (sortByDateAsc trades) 0 0 0

/-- C3 (amended): maxDrawdown is 0 on the empty collection, and on a
singleton it equals max 0 (-rMultiple): zero exactly when the r-multiple of
the single trade is nonnegative, since the peak starts at 0 before any trade
is applied. -/
theorem maxDrawdown_small_collections :
    (calculateStats []).maxDrawdown = 0
    ∧ ∀ t : Trade, (calculateStats [t]).maxDrawdown = max 0 (-t.rMultiple) := by
  constructor
  · simp [calculateStats, emptyStats]
  · intro t
    rw [calculateStats_ne_nil [t] (by simp)]
    show maxDrawdownWalk (sortByDateAsc [t]) = max 0 (-t.rMultiple)
    have hs : sortByDateAsc [t] = [t] := rfl
    rw [hs]
    show ddGo [t] 0 0 0 = max 0 (-t.rMultiple)
    simp only [ddGo, zero_add]
    rcases le_total 0 t.rMultiple with h | h
    · rw [max_eq_right h]
      simp [max_eq_left, neg_nonpos.mpr h]
    · rw [max_eq_left h]
      simp

/-- C3 counterexample: a single losing trade with r-multiple -1 is a
collection of size at most 1 whose maxDrawdown is not 0. -/
theorem maxDrawdown_singleton_counterexample :
    [sampleLoss].length ≤ 1 ∧ (calculateStats [sampleLoss]).maxDrawdown ≠ 0 := by
  constructor
  · simp
  · norm_num [calculateStats, statsNonempty, maxDrawdownWalk, ddGo, sortByDateAsc,
      List.insertionSort, List.orderedInsert, sampleLoss, sampleWin, mkDate]

/-- C2 (amended): profitFactor is the infinity sentinel iff totalLoss = 0 and
totalProfit > 0; it is the number 0 iff either totalLoss = 0 and
totalProfit <= 0, or totalLoss > 0 and totalProfit = 0; and whenever
totalLoss > 0 it is totalProfit / totalLoss. -/
theorem profitFactor_characterization (trades : List Trade) :
    ((calculateStats trades).profitFactor = PFVal.inf ↔
      (calculateStats trades).totalLoss = 0 ∧ 0 < (calculateStats trades).totalProfit)
    ∧ ((calculateStats trades).profitFactor = PFVal.val 0 ↔
      (((calculateStats trades).totalLoss = 0 ∧ (calculateStats trades).totalProfit ≤ 0)
        ∨ (0 < (calculateStats trades).totalLoss ∧ (calculateStats trades).totalProfit = 0)))
    ∧ (0 < (calculateStats trades).totalLoss →
      (calculateStats trades).profitFactor
        = PFVal.val ((calculateStats trades).totalProfit / (calculateStats trades).totalLoss)) := by
  rcases eq_or_ne trades [] with rfl | h
  · simp [calculateStats, emptyStats]
  · rw [calculateStats_ne_nil trades h]
    show (profitFactorOf (totalProfitOf trades) (totalLossOf trades) = PFVal.inf ↔
        totalLossOf trades = 0 ∧ 0 < totalProfitOf trades)
      ∧ (profitFactorOf (totalProfitOf trades) (totalLossOf trades) = PFVal.val 0 ↔
        ((totalLossOf trades = 0 ∧ totalProfitOf trades ≤ 0)
          ∨ (0 < totalLossOf trades ∧ totalProfitOf trades = 0)))
      ∧ (0 < totalLossOf trades →
        profitFactorOf (totalProfitOf trades) (totalLossOf trades)
          = PFVal.val (totalProfitOf trades / totalLossOf trades))
    set tp := totalProfitOf trades with htp
    set tl := totalLossOf trades with htl
    have h0 : 0 ≤ tl := abs_nonneg _
    unfold profitFactorOf
    split_ifs with h1 h2
    · have hne : tl ≠ 0 := ne_of_gt h1
      refine ⟨by simp [hne], ?_, fun _ => rfl⟩
      simp [div_eq_zero_iff, hne, h1, PFVal.val.injEq]
    · have htl0 : tl = 0 := le_antisymm (not_lt.mp h1) h0
      refine ⟨by simp [htl0, h2], ?_, fun hc => absurd hc h1⟩
      simp [htl0, not_le.mpr h2]
    · have htl0 : tl = 0 := le_antisymm (not_lt.mp h1) h0
      refine ⟨by simp [not_lt.mp h2], ?_, fun hc => absurd hc h1⟩
      simp [htl0, not_lt.mp h2, h1]

/-- C2 counterexample: for the singleton collection holding one ordinary
losing trade, profitFactor is 0 although totalLoss is 100, not 0, so the
claimed equivalence for the value 0 fails. -/
theorem profitFactor_zero_counterexample :
    ¬ (((calculateStats [sampleLoss]).profitFactor = PFVal.val 0) ↔
      ((calculateStats [sampleLoss]).totalLoss = 0
        ∧ (calculateStats [sampleLoss]).totalProfit = 0)) := by
  rw [calculateStats_ne_nil [sampleLoss] (by simp)]
  have h2 : (statsNonempty [sampleLoss]).totalLoss = totalLossOf [sampleLoss] := rfl
  have h3 : (statsNonempty [sampleLoss]).totalProfit = totalProfitOf [sampleLoss] := rfl
  have h4 : (statsNonempty [sampleLoss]).profitFactor
      = profitFactorOf (totalProfitOf [sampleLoss]) (totalLossOf [sampleLoss]) := rfl
  have h5 : totalProfitOf [sampleLoss] = 0 := by
    simp [totalProfitOf, winsOf, sampleLoss, sampleWin, mkDate, List.filter_cons]
  have h6 : totalLossOf [sampleLoss] = 100 := by
    simp [totalLossOf, lossesOf, sampleLoss, sampleWin, mkDate, List.filter_cons]
  rw [h2, h3, h4, h5, h6]
  norm_num [profitFactorOf]

/-- C2 witness: at the singleton loss collection, totalLoss is positive and
the final clause of the characterization applies. -/
theorem profitFactor_characterization_witness :
    (calculateStats [sampleLoss]).profitFactor
      = PFVal.val ((calculateStats [sampleLoss]).totalProfit
          / (calculateStats [sampleLoss]).totalLoss) :=
  (profitFactor_characterization [sampleLoss]).2.2 (by
    rw [calculateStats_ne_nil [sampleLoss] (by simp)]
    have h2 : (statsNonempty [sampleLoss]).totalLoss = totalLossOf [sampleLoss] := rfl
    have h6 : totalLossOf [sampleLoss] = 100 := by
      simp [totalLossOf, lossesOf, sampleLoss, sampleWin, mkDate, List.filter_cons]
    rw [h2, h6]
    norm_num)

end TradingJournal

namespace TradingJournal

/-- Default EquityPoint used as the getD fallback in index statements. -/
def noPoint : EquityPoint := { date := "", equity := 0, balance := 0 }

/-- Default Trade used as the getD fallback; never inspected at an in-bounds
index. -/
def noTrade : Trade :=
  { id := "", accountId := "", date := { time := 0, year := 0, month := 0, localeString := "" }
    pair := "", direction := Direction.Buy, entry := 0, stopLoss := 0, takeProfit := 0
    exitPrice := 0, result := Outcome.BE, rMultiple := 0, riskPercent := 0
    riskAmount := 0, rewardAmount := 0, session := Session.Asian, setupTag := ""
    emotion := Emotion.Calm, disciplineRating := 0, screenshot := none, notes := "" }

/-- The equity loop emits exactly one point per trade. -/
lemma equityGo_length (sb : Rat) :
    ∀ (l : List Trade) (rb : Rat), (equityGo sb rb l).length = l.length := by
  intro l
  induction l with
  | nil => intro rb; rfl
  | cons t ts ih => intro rb; simp [equityGo, ih]

/-- Balance stored at index i of the equity loop output: the incoming running
balance plus the deltas of the first i + 1 trades. -/
lemma equityGo_getD_balance (sb : Rat) :
    ∀ (l : List Trade) (rb : Rat) (i : Nat), i < l.length →
      ((equityGo sb rb l).getD i noPoint).balance
        = rb + ((l.take (i + 1)).map tradeDelta).sum := by
  intro l
  induction l with
  | nil => intro rb i h; simp at h
  | cons t ts ih =>
    intro rb i h
    cases i with
    | zero => simp [equityGo]
    | succ j =>
      have hj : j < ts.length := by simpa using h
      simp only [equityGo, List.getD_cons_succ]
      rw [ih (rb + tradeDelta t) j hj]
      simp only [List.take_succ_cons, List.map_cons, List.sum_cons]
      ring

/-- Last balance of the equity loop output, with the fallback point carrying
the incoming running balance. -/
lemma equityGo_getLast_balance (sb : Rat) :
    ∀ (l : List Trade) (rb : Rat) (d : EquityPoint), d.balance = rb →
      ((equityGo sb rb l).getLastD d).balance = rb + (l.map tradeDelta).sum := by
  intro l
  induction l with
  | nil => intro rb d hd; simpa using hd
  | cons t ts ih =>
    intro rb d hd
    simp only [equityGo, List.getLastD_cons]
    rw [ih (rb + tradeDelta t) _ rfl]
    simp only [List.map_cons, List.sum_cons]
    ring

/-- One step of the accumulated sums of per-trade deltas. -/
lemma take_map_sum_succ :
    ∀ (l : List Trade) (i : Nat), i < l.length →
      ((l.take (i + 1)).map tradeDelta).sum
        = ((l.take i).map tradeDelta).sum + tradeDelta (l.getD i noTrade) := by
  intro l
  induction l with
  | nil => intro i h; simp at h
  | cons t ts ih =>
    intro i h
    cases i with
    | zero => simp
    | succ j =>
      have hj : j < ts.length := by simpa using h
      simp only [List.take_succ_cons, List.map_cons, List.sum_cons, List.getD_cons_succ]
      rw [ih j hj]
      ring

/-- Sorting chronologically permutes the trades, so the delta sum is
unchanged. -/
lemma sum_tradeDelta_sort (trades : List Trade) :
    ((sortByDateAsc trades).map tradeDelta).sum = (trades.map tradeDelta).sum :=
  ((List.perm_insertionSort _ trades).map tradeDelta).sum_eq

/-- C1 (amended): in the equity curve each per-trade point adds the full
reward amount of the trade, whatever its outcome, minus the risk amount on a
loss; consequently the last balance is the starting balance plus the sum of
rewardAmount - (riskAmount if Loss else 0) over all trades. The reward of a
losing or breakeven trade is NOT replaced by zero. -/
theorem equity_curve_balance_recurrence (trades : List Trade) (startingBalance : Rat) :
    (∀ i : Nat, i + 1 < (calculateEquityCurve trades startingBalance).length →
      ((calculateEquityCurve trades startingBalance).getD (i + 1) noPoint).balance
        = ((calculateEquityCurve trades startingBalance).getD i noPoint).balance
          + tradeDelta ((sortByDateAsc trades).getD i noTrade))
    ∧ ((calculateEquityCurve trades startingBalance).getLastD noPoint).balance
        = startingBalance + (trades.map tradeDelta).sum := by
  constructor
  · intro i hi
    have hlen : (calculateEquityCurve trades startingBalance).length
        = (sortByDateAsc trades).length + 1 := by
      simp [calculateEquityCurve, equityGo_length]
    have hi2 : i < (sortByDateAsc trades).length := by
      rw [hlen] at hi; omega
    cases i with
    | zero =>
      simp only [calculateEquityCurve, List.getD_cons_succ, List.getD_cons_zero]
      rw [equityGo_getD_balance _ _ _ 0 hi2, take_map_sum_succ _ 0 hi2]
      simp
    | succ j =>
      have hj : j < (sortByDateAsc trades).length := by omega
      simp only [calculateEquityCurve, List.getD_cons_succ]
      rw [equityGo_getD_balance _ _ _ (j + 1) hi2, equityGo_getD_balance _ _ _ j hj,
        take_map_sum_succ _ (j + 1) hi2]
      ring
  · show ((_ :: equityGo startingBalance startingBalance (sortByDateAsc trades)).getLastD
        noPoint).balance = _
    rw [List.getLastD_cons,
      equityGo_getLast_balance startingBalance (sortByDateAsc trades) startingBalance _ rfl,
      sum_tradeDelta_sort]

/-- C1 counterexample: a single losing trade carrying reward amount 200 and
risk amount 100; the code ends at balance 1100 while the claimed formula
(reward only on wins) predicts 900. -/
theorem equity_curve_claim_counterexample :
    ¬ (((calculateEquityCurve [lossWithReward] 1000).getLastD noPoint).balance
      = 1000 + ([lossWithReward].map specTradeDelta).sum) := by
  simp only [calculateEquityCurve, equityGo, sortByDateAsc, List.insertionSort,
    List.orderedInsert, tradeDelta, specTradeDelta, lossWithReward, sampleWin, mkDate,
    List.getLastD_cons, List.map_cons, List.map_nil, List.sum_cons, List.sum_nil]
  simp

/-- C1 witness: the recurrence instantiated at index 0 of a two-trade
collection. -/
theorem equity_curve_balance_recurrence_witness :
    (0 + 1 < (calculateEquityCurve [sampleWin, sampleLoss] 500).length)
    ∧ ((calculateEquityCurve [sampleWin, sampleLoss] 500).getD (0 + 1) noPoint).balance
      = ((calculateEquityCurve [sampleWin, sampleLoss] 500).getD 0 noPoint).balance
        + tradeDelta ((sortByDateAsc [sampleWin, sampleLoss]).getD 0 noTrade) :=
  ⟨by norm_num [calculateEquityCurve, equityGo, sortByDateAsc, List.insertionSort,
      List.orderedInsert, sampleWin, sampleLoss, mkDate],
    (equity_curve_balance_recurrence [sampleWin, sampleLoss] 500).1 0 (by
      norm_num [calculateEquityCurve, equityGo, sortByDateAsc, List.insertionSort,
        List.orderedInsert, sampleWin, sampleLoss, mkDate])⟩

end TradingJournal

namespace TradingJournal

/-- Boolean test for a winning trade. -/
def isWinB (t : Trade) : Bool := decide (t.result = Outcome.Win)

/-- Boolean test for a losing trade. -/
def isLossB (t : Trade) : Bool := decide (t.result = Outcome.Loss)

/-- Length of the leading run of elements satisfying p. -/
def countLead (p : Trade → Bool) : List Trade → Nat
  | [] => 0
  | t :: ts => if p t then countLead p ts + 1 else 0

/-- Length of the longest contiguous run of elements satisfying p, stated
independently of the streak loop: the maximum, over all suffixes, of the
leading-run length. -/
def maxRun (p : Trade → Bool) : List Trade → Nat
  | [] => 0
  | t :: ts => max (if p t then countLead p ts + 1 else 0) (maxRun p ts)

/-- Longest run when a run of length c is carried in from the left, the
quantity the streak loop tracks. -/
def mrc (p : Trade → Bool) : Nat → List Trade → Nat
  | _, [] => 0
  | c, t :: ts => if p t then max (c + 1) (mrc p (c + 1) ts) else mrc p 0 ts

/-- The leading run is never longer than the longest run. -/
lemma countLead_le_maxRun (p : Trade → Bool) : ∀ l, countLead p l ≤ maxRun p l := by
  intro l
  cases l with
  | nil => exact le_refl 0
  | cons t ts =>
    show (if p t then countLead p ts + 1 else 0)
      ≤ max (if p t then countLead p ts + 1 else 0) (maxRun p ts)
    exact le_max_left _ _

/-- Closed form of the carried longest run. -/
lemma mrc_eq (p : Trade → Bool) :
    ∀ (l : List Trade) (c : Nat),
      mrc p c l = max (maxRun p l) (if countLead p l = 0 then 0 else c + countLead p l) := by
  intro l
  induction l with
  | nil => intro c; simp [mrc, maxRun, countLead]
  | cons t ts ih =>
    intro c
    have hle := countLead_le_maxRun p ts
    by_cases hp : p t
    · rw [show mrc p c (t :: ts) = max (c + 1) (mrc p (c + 1) ts) from by
          simp [mrc, hp],
        show maxRun p (t :: ts) = max (countLead p ts + 1) (maxRun p ts) from by
          simp [maxRun, hp],
        show countLead p (t :: ts) = countLead p ts + 1 from by simp [countLead, hp],
        ih (c + 1)]
      by_cases h0 : countLead p ts = 0
      · simp [h0] <;> omega
      · simp [h0] <;> omega
    · rw [show mrc p c (t :: ts) = mrc p 0 ts from by simp [mrc, hp],
        show maxRun p (t :: ts) = max 0 (maxRun p ts) from by simp [maxRun, hp],
        show countLead p (t :: ts) = 0 from by simp [countLead, hp],
        ih 0]
      by_cases h0 : countLead p ts = 0
      · simp [h0] <;> omega
      · simp [h0] <;> omega

/-- With no carried run, the loop quantity is exactly the longest run. -/
lemma mrc_zero (p : Trade → Bool) (l : List Trade) : mrc p 0 l = maxRun p l := by
  rw [mrc_eq]
  have h := countLead_le_maxRun p l
  by_cases h0 : countLead p l = 0
  · simp [h0] <;> omega
  · simp [h0] <;> omega

/-- The streak loop computes, in each component, the join of the running
maximum with the carried longest run of the corresponding outcome. -/
lemma streakGo_eq (l : List Trade) :
    ∀ cw cl mw ml, streakGo l cw cl mw ml
      = (max mw (mrc isWinB cw l), max ml (mrc isLossB cl l)) := by
  induction l with
  | nil => intro cw cl mw ml; simp [streakGo, mrc]
  | cons t ts ih =>
    intro cw cl mw ml
    have hw : isWinB t = decide (t.result = Outcome.Win) := rfl
    have hl : isLossB t = decide (t.result = Outcome.Loss) := rfl
    cases ht : t.result with
    | Win =>
      rw [show streakGo (t :: ts) cw cl mw ml
            = streakGo ts (cw + 1) 0 (max mw (cw + 1)) ml from by simp [streakGo, ht],
        show mrc isWinB cw (t :: ts) = max (cw + 1) (mrc isWinB (cw + 1) ts) from by
          simp [mrc, isWinB, ht],
        show mrc isLossB cl (t :: ts) = mrc isLossB 0 ts from by simp [mrc, isLossB, ht],
        ih]
      rw [Prod.mk.injEq]
      constructor
      · omega
      · rfl
    | Loss =>
      rw [show streakGo (t :: ts) cw cl mw ml
            = streakGo ts 0 (cl + 1) mw (max ml (cl + 1)) from by simp [streakGo, ht],
        show mrc isWinB cw (t :: ts) = mrc isWinB 0 ts from by simp [mrc, isWinB, ht],
        show mrc isLossB cl (t :: ts) = max (cl + 1) (mrc isLossB (cl + 1) ts) from by
          simp [mrc, isLossB, ht],
        ih]
      rw [Prod.mk.injEq]
      constructor
      · rfl
      · omega
    | BE =>
      rw [show streakGo (t :: ts) cw cl mw ml = streakGo ts 0 0 mw ml from by
          simp [streakGo, ht],
        show mrc isWinB cw (t :: ts) = mrc isWinB 0 ts from by simp [mrc, isWinB, ht],
        show mrc isLossB cl (t :: ts) = mrc isLossB 0 ts from by simp [mrc, isLossB, ht],
        ih]

/-- The streak pair is the pair of longest runs. -/
lemma streaksOf_eq (l : List Trade) :
    streaksOf l = (maxRun isWinB l, maxRun isLossB l) := by
  unfold streaksOf
  rw [streakGo_eq, mrc_zero, mrc_zero]
  simp

/-- C5: maxConsecutiveWins is the length of the longest run of consecutive
Win outcomes in the date-ascending sorted sequence, and maxConsecutiveLosses
the longest run of consecutive Loss outcomes; a BreakEven trade breaks both
runs, as any non-matching outcome does. -/
theorem consecutive_streaks_eq_longest_runs (trades : List Trade) :
    (calculateStats trades).maxConsecutiveWins = maxRun isWinB (sortByDateAsc trades)
    ∧ (calculateStats trades).maxConsecutiveLosses = maxRun isLossB (sortByDateAsc trades) := by
  rcases eq_or_ne trades [] with rfl | h
  · constructor <;> rfl
  · rw [calculateStats_ne_nil trades h]
    show (streaksOf (sortByDateAsc trades)).1 = _
      ∧ (streaksOf (sortByDateAsc trades)).2 = _
    rw [streaksOf_eq]
    exact ⟨rfl, rfl⟩

end TradingJournal

namespace TradingJournal

/-- C6: every entry of the session breakdown counts at least one trade, its
session key is one of the five declared names, and the surviving entries
keep the declared enumeration order: the list of keys is a sublist of the
fixed enumeration. -/
theorem session_breakdown_invariants (trades : List Trade) :
    (∀ e ∈ calculateSessionStats trades, 1 ≤ e.trades ∧ e.session ∈ sessionNames)
    ∧ List.Sublist ((calculateSessionStats trades).map (fun e => e.session)) sessionNames := by
  constructor
  · intro e he
    unfold calculateSessionStats at he
    rw [List.mem_filter] at he
    obtain ⟨hm, hp⟩ := he
    constructor
    · have h1 : 0 < e.trades := of_decide_eq_true hp
      omega
    · obtain ⟨s, hs, hes⟩ := List.mem_map.mp hm
      have hproj : (mkSessionStat trades s).session = s := rfl
      rw [← hes, hproj]
      exact hs
  · unfold calculateSessionStats
    rw [List.filter_map, List.map_map]
    have hid : ((fun e : SessionStats => e.session) ∘ mkSessionStat trades) = id := by
      funext s
      rfl
    rw [hid, List.map_id]
    exact List.filter_sublist _

/-- C6 witness: the invariants instantiated at a singleton collection, whose
breakdown is the single London entry. -/
theorem session_breakdown_invariants_witness :
    (1 ≤ (mkSessionStat [sampleWin] "London").trades
      ∧ (mkSessionStat [sampleWin] "London").session ∈ sessionNames)
    ∧ List.Sublist ((calculateSessionStats [sampleWin]).map (fun e => e.session))
        sessionNames :=
  ⟨(session_breakdown_invariants [sampleWin]).1 (mkSessionStat [sampleWin] "London")
      (by
        simp [calculateSessionStats, sessionNames, List.filter_cons, mkSessionStat,
          sampleWin, mkDate, Session.name]),
    (session_breakdown_invariants [sampleWin]).2⟩

end TradingJournal

namespace TradingJournal

/-- A trade whose free-form setup tag is the literal string used as the
not-available sentinel. -/
def naTagTrade : Trade := { sampleWin with id := "t4", setupTag := "N/A" }

/-- Every session name is in the fixed enumeration. -/
lemma session_name_mem (s : Session) : s.name ∈ sessionNames := by
  cases s <;> simp [Session.name, sessionNames]

/-- The session key of any breakdown entry is one of the five names. -/
lemma sessionStats_mem_names (trades : List Trade) (e : SessionStats)
    (he : e ∈ calculateSessionStats trades) : e.session ∈ sessionNames := by
  unfold calculateSessionStats at he
  rw [List.mem_filter] at he
  obtain ⟨s, hs, hes⟩ := List.mem_map.mp he.1
  have hproj : (mkSessionStat trades s).session = s := rfl
  rw [← hes, hproj]
  exact hs

/-- A non-empty collection yields a non-empty session breakdown: the bucket
of the first trade survives the zero-count filter. -/
lemma sessionStats_ne_nil (trades : List Trade) (h : trades ≠ []) :
    calculateSessionStats trades ≠ [] := by
  obtain ⟨t0, ts, rfl⟩ := List.exists_cons_of_ne_nil h
  apply List.ne_nil_of_mem (a := mkSessionStat (t0 :: ts) t0.session.name)
  unfold calculateSessionStats
  rw [List.mem_filter]
  refine ⟨List.mem_map_of_mem _ (session_name_mem t0.session), ?_⟩
  apply decide_eq_true
  show 0 < ((t0 :: ts).filter (fun t => decide (t.session.name = t0.session.name))).length
  have ht : t0 ∈ (t0 :: ts).filter (fun t => decide (t.session.name = t0.session.name)) :=
    List.mem_filter.mpr ⟨List.mem_cons_self _ _, by simp⟩
  exact List.length_pos.mpr (List.ne_nil_of_mem ht)

/-- Elements of the first-seen deduplication come from the input list. -/
lemma mem_dedupFirst : ∀ (seen l : List String) (x : String),
    x ∈ dedupFirst seen l → x ∈ l := by
  intro seen l
  induction l generalizing seen with
  | nil => intro x hx; simp [dedupFirst] at hx
  | cons a as ih =>
    intro x hx
    unfold dedupFirst at hx
    split at hx
    · exact List.mem_cons_of_mem _ (ih _ _ hx)
    · rcases List.mem_cons.mp hx with rfl | h2
      · exact List.mem_cons_self _ _
      · exact List.mem_cons_of_mem _ (ih _ _ h2)

/-- The setup key of any breakdown entry is the tag of some input trade. -/
lemma setupStats_setup_mem (trades : List Trade) (e : SetupStats)
    (he : e ∈ calculateSetupStats trades) : ∃ t ∈ trades, e.setup = t.setupTag := by
  unfold calculateSetupStats at he
  rw [List.mem_filter] at he
  obtain ⟨s, hs, hes⟩ := List.mem_map.mp he.1
  have hmem : s ∈ trades.map (fun t => t.setupTag) := mem_dedupFirst [] _ s hs
  obtain ⟨t, ht, hts⟩ := List.mem_map.mp hmem
  refine ⟨t, ht, ?_⟩
  have hproj : (mkSetupStat trades s).setup = s := rfl
  rw [← hes, hproj, hts]

/-- A non-empty collection yields a non-empty setup breakdown. -/
lemma setupStats_ne_nil (trades : List Trade) (h : trades ≠ []) :
    calculateSetupStats trades ≠ [] := by
  obtain ⟨t0, ts, rfl⟩ := List.exists_cons_of_ne_nil h
  apply List.ne_nil_of_mem (a := mkSetupStat (t0 :: ts) t0.setupTag)
  unfold calculateSetupStats
  rw [List.mem_filter]
  constructor
  · apply List.mem_map_of_mem
    show t0.setupTag ∈ dedupFirst [] ((t0 :: ts).map (fun t => t.setupTag))
    rw [List.map_cons]
    unfold dedupFirst
    simp
  · apply decide_eq_true
    show 0 < ((t0 :: ts).filter (fun t => decide (t.setupTag = t0.setupTag))).length
    have ht : t0 ∈ (t0 :: ts).filter (fun t => decide (t.setupTag = t0.setupTag)) :=
      List.mem_filter.mpr ⟨List.mem_cons_self _ _, by simp⟩
    exact List.length_pos.mpr (List.ne_nil_of_mem ht)

/-- A fold of a binary selection returns its seed or a list element. -/
lemma foldl_choice {α : Type} (g : α → α → α) (hg : ∀ a b, g a b = a ∨ g a b = b) :
    ∀ (l : List α) (acc : α), List.foldl g acc l = acc ∨ List.foldl g acc l ∈ l := by
  intro l
  induction l with
  | nil => intro acc; left; rfl
  | cons x xs ih =>
    intro acc
    rw [List.foldl_cons]
    rcases ih (g acc x) with h | h
    · rcases hg acc x with h2 | h2
      · left
        rw [h, h2]
      · right
        rw [h, h2]
        exact List.mem_cons_self _ _
    · right
      exact List.mem_cons_of_mem _ h

/-- The four reducers each return one of their two arguments. -/
lemma pickHigherSession_choice (a b : SessionStats) :
    pickHigherSession a b = a ∨ pickHigherSession a b = b := by
  unfold pickHigherSession
  split
  · right; rfl
  · left; rfl

/-- Selection property of the worst-session reducer. -/
lemma pickLowerSession_choice (a b : SessionStats) :
    pickLowerSession a b = a ∨ pickLowerSession a b = b := by
  unfold pickLowerSession
  split
  · right; rfl
  · left; rfl

/-- Selection property of the best-setup reducer. -/
lemma pickHigherSetup_choice (a b : SetupStats) :
    pickHigherSetup a b = a ∨ pickHigherSetup a b = b := by
  unfold pickHigherSetup
  split
  · right; rfl
  · left; rfl

/-- Selection property of the worst-setup reducer. -/
lemma pickLowerSetup_choice (a b : SetupStats) :
    pickLowerSetup a b = a ∨ pickLowerSetup a b = b := by
  unfold pickLowerSetup
  split
  · right; rfl
  · left; rfl

/-- Applying the or-default to any of the five session names never gives the
sentinel. -/
lemma orNA_sessionName_ne (s : String) (hs : s ∈ sessionNames) : orNA s ≠ "N/A" := by
  simp only [sessionNames, List.mem_cons, List.not_mem_nil, or_false] at hs
  rcases hs with rfl | rfl | rfl | rfl | rfl <;> simp [orNA]

/-- Applying the or-default to a string that is neither empty nor the
sentinel does not give the sentinel. -/
lemma orNA_ne (s : String) (h1 : s ≠ "") (h2 : s ≠ "N/A") : orNA s ≠ "N/A" := by
  unfold orNA
  rw [if_neg h1]
  exact h2

/-- C9 (amended): on every non-empty collection bestSession and worstSession
are never the sentinel, unconditionally, because sessions form a closed
five-value enumeration; bestSetup and worstSetup always equal the or-default
of the setup tag of some input trade (the tag itself whenever it is
non-empty), and both differ from the sentinel whenever no trade carries an
empty or literal "N/A" setup tag (the tag is free-form, so those two inputs
do produce the sentinel). -/
theorem best_worst_defined (trades : List Trade) (h : trades ≠ []) :
    (calculateStats trades).bestSession ≠ "N/A"
    ∧ (calculateStats trades).worstSession ≠ "N/A"
    ∧ (∃ t ∈ trades, (calculateStats trades).bestSetup = orNA t.setupTag)
    ∧ (∃ t ∈ trades, (calculateStats trades).worstSetup = orNA t.setupTag)
    ∧ ((∀ t ∈ trades, t.setupTag ≠ "" ∧ t.setupTag ≠ "N/A") →
        (calculateStats trades).bestSetup ≠ "N/A"
        ∧ (calculateStats trades).worstSetup ≠ "N/A") := by
  rw [calculateStats_ne_nil trades h]
  obtain ⟨r, rs, hq⟩ := List.exists_cons_of_ne_nil (sessionStats_ne_nil trades h)
  obtain ⟨u, us, hq2⟩ := List.exists_cons_of_ne_nil (setupStats_ne_nil trades h)
  have hbe : ∃ t ∈ trades, bestSetupStr trades = orNA t.setupTag := by
    unfold bestSetupStr
    rw [hq2]
    have hx : List.foldl pickHigherSetup u (u :: us) ∈ u :: us := by
      rcases foldl_choice pickHigherSetup pickHigherSetup_choice (u :: us) u with h2 | h2
      · rw [h2]; exact List.mem_cons_self _ _
      · exact h2
    have hx2 : List.foldl pickHigherSetup u (u :: us) ∈ calculateSetupStats trades := by
      rw [hq2]; exact hx
    obtain ⟨t, ht, hts⟩ := setupStats_setup_mem trades _ hx2
    refine ⟨t, ht, ?_⟩
    show orNA (List.foldl pickHigherSetup u (u :: us)).setup = orNA t.setupTag
    rw [hts]
  have hwe : ∃ t ∈ trades, worstSetupStr trades = orNA t.setupTag := by
    unfold worstSetupStr
    rw [hq2]
    have hx : List.foldl pickLowerSetup u (u :: us) ∈ u :: us := by
      rcases foldl_choice pickLowerSetup pickLowerSetup_choice (u :: us) u with h2 | h2
      · rw [h2]; exact List.mem_cons_self _ _
      · exact h2
    have hx2 : List.foldl pickLowerSetup u (u :: us) ∈ calculateSetupStats trades := by
      rw [hq2]; exact hx
    obtain ⟨t, ht, hts⟩ := setupStats_setup_mem trades _ hx2
    refine ⟨t, ht, ?_⟩
    show orNA (List.foldl pickLowerSetup u (u :: us)).setup = orNA t.setupTag
    rw [hts]
  refine ⟨?_, ?_, ?_, ?_, ?_⟩
  · show bestSessionStr trades ≠ "N/A"
    unfold bestSessionStr
    rw [hq]
    have hx : List.foldl pickHigherSession r (r :: rs) ∈ r :: rs := by
      rcases foldl_choice pickHigherSession pickHigherSession_choice (r :: rs) r with h2 | h2
      · rw [h2]; exact List.mem_cons_self _ _
      · exact h2
    have hx2 : List.foldl pickHigherSession r (r :: rs) ∈ calculateSessionStats trades := by
      rw [hq]; exact hx
    exact orNA_sessionName_ne _ (sessionStats_mem_names trades _ hx2)
  · show worstSessionStr trades ≠ "N/A"
    unfold worstSessionStr
    rw [hq]
    have hx : List.foldl pickLowerSession r (r :: rs) ∈ r :: rs := by
      rcases foldl_choice pickLowerSession pickLowerSession_choice (r :: rs) r with h2 | h2
      · rw [h2]; exact List.mem_cons_self _ _
      · exact h2
    have hx2 : List.foldl pickLowerSession r (r :: rs) ∈ calculateSessionStats trades := by
      rw [hq]; exact hx
    exact orNA_sessionName_ne _ (sessionStats_mem_names trades _ hx2)
  · show ∃ t ∈ trades, bestSetupStr trades = orNA t.setupTag
    exact hbe
  · show ∃ t ∈ trades, worstSetupStr trades = orNA t.setupTag
    exact hwe
  · intro hs2
    obtain ⟨t1, ht1, he1⟩ := hbe
    obtain ⟨t2, ht2, he2⟩ := hwe
    constructor
    · show bestSetupStr trades ≠ "N/A"
      rw [he1]
      exact orNA_ne _ (hs2 t1 ht1).1 (hs2 t1 ht1).2
    · show worstSetupStr trades ≠ "N/A"
      rw [he2]
      exact orNA_ne _ (hs2 t2 ht2).1 (hs2 t2 ht2).2

/-- C9 counterexample: a non-empty collection whose single trade carries the
free-form setup tag "N/A"; bestSetup equals the sentinel string. -/
theorem best_setup_na_counterexample :
    ([naTagTrade] ≠ ([] : List Trade))
    ∧ (calculateStats [naTagTrade]).bestSetup = "N/A" := by
  constructor
  · simp
  · rw [calculateStats_ne_nil [naTagTrade] (by simp)]
    show bestSetupStr [naTagTrade] = "N/A"
    simp [bestSetupStr, calculateSetupStats, setupTagsOf, dedupFirst, mkSetupStat,
      orNA, pickHigherSetup, naTagTrade, sampleWin, mkDate, List.filter_cons]

/-- C9 witness: the amended statement applied to a singleton collection,
discharging the non-emptiness hypothesis. -/
theorem best_worst_defined_witness :
    (([sampleWin] : List Trade) ≠ [])
    ∧ ((calculateStats [sampleWin]).bestSession ≠ "N/A"
      ∧ (calculateStats [sampleWin]).worstSession ≠ "N/A"
      ∧ (∃ t ∈ ([sampleWin] : List Trade),
          (calculateStats [sampleWin]).bestSetup = orNA t.setupTag)
      ∧ (∃ t ∈ ([sampleWin] : List Trade),
          (calculateStats [sampleWin]).worstSetup = orNA t.setupTag)
      ∧ ((∀ t ∈ ([sampleWin] : List Trade), t.setupTag ≠ "" ∧ t.setupTag ≠ "N/A") →
          (calculateStats [sampleWin]).bestSetup ≠ "N/A"
          ∧ (calculateStats [sampleWin]).worstSetup ≠ "N/A")) :=
  ⟨by simp, best_worst_defined [sampleWin] (by simp)⟩

end TradingJournal

namespace TradingJournal

/-- Invariant of the month accumulator: every bucket holds at least one
trade, and never more wins than trades. -/
def mpInv (m : List (String × MRec)) : Prop :=
  ∀ e ∈ m, 1 ≤ e.2.trades ∧ e.2.wins ≤ e.2.trades

/-- Inserting a trade preserves the accumulator invariant. -/
lemma mpInsert_inv (t : Trade) :
    ∀ (m : List (String × MRec)), mpInv m → mpInv (mpInsert t m) := by
  intro m
  induction m with
  | nil =>
    intro _ e he
    simp only [mpInsert, List.mem_singleton] at he
    subst he
    refine ⟨le_refl 1, ?_⟩
    split <;> simp
  | cons p ps ih =>
    intro hinv e he
    have hp := hinv p (List.mem_cons_self p ps)
    have hps : mpInv ps := fun e' he' => hinv e' (List.mem_cons_of_mem p he')
    unfold mpInsert at he
    split at he
    · rcases List.mem_cons.mp he with rfl | h2
      · have h3 := hp.2
        refine ⟨?_, ?_⟩
        · show 1 ≤ p.2.trades + 1
          omega
        · show p.2.wins + (if t.result = Outcome.Win then 1 else 0) ≤ p.2.trades + 1
          split <;> omega
      · exact hps e h2
    · rcases List.mem_cons.mp he with rfl | h2
      · exact hp
      · exact ih hps e h2

/-- Folding the whole collection preserves the accumulator invariant. -/
lemma foldl_mpInsert_inv (trades : List Trade) :
    ∀ m, mpInv m → mpInv (trades.foldl (fun m t => mpInsert t m) m) := by
  induction trades with
  | nil => intro m hm; exact hm
  | cons t ts ih =>
    intro m hm
    rw [List.foldl_cons]
    exact ih _ (mpInsert_inv t m hm)

/-- C10: every record of the monthly rollup counts at least one trade (a
bucket is created only when a trade falls into it), so the unguarded winRate
division is safe and the rate lies between 0 and 100. -/
theorem monthly_records_valid (trades : List Trade) :
    ∀ rec ∈ calculateMonthlyPerformance trades,
      1 ≤ rec.trades ∧ 0 ≤ rec.winRate ∧ rec.winRate ≤ 100 := by
  intro rec hrec
  unfold calculateMonthlyPerformance at hrec
  obtain ⟨e, he, hre⟩ := List.mem_map.mp hrec
  have hperm := List.perm_insertionSort (fun a b : String × MRec => a.1 ≤ b.1)
    (trades.foldl (fun m t => mpInsert t m) [])
  have he2 : e ∈ trades.foldl (fun m t => mpInsert t m) [] := hperm.mem_iff.mp he
  have hinv := foldl_mpInsert_inv trades []
    (by intro e' he'; simp at he') e he2
  obtain ⟨h1, h2⟩ := hinv
  rw [← hre]
  refine ⟨h1, ?_, ?_⟩
  · show 0 ≤ ((e.2.wins : Rat) / (e.2.trades : Rat)) * 100
    apply mul_nonneg (div_nonneg (Nat.cast_nonneg _) (Nat.cast_nonneg _))
    norm_num
  · show ((e.2.wins : Rat) / (e.2.trades : Rat)) * 100 ≤ 100
    have hn : (0 : Rat) < (e.2.trades : Rat) := by
      exact_mod_cast Nat.lt_of_lt_of_le Nat.zero_lt_one h1
    have hw : (e.2.wins : Rat) ≤ (e.2.trades : Rat) := Nat.cast_le.mpr h2
    have hd : (e.2.wins : Rat) / (e.2.trades : Rat) ≤ 1 := (div_le_one hn).mpr hw
    have := mul_le_mul_of_nonneg_right hd (by norm_num : (0 : Rat) ≤ 100)
    simpa using this

/-- C10 witness: the monthly rollup of a single March 2024 winning trade is
one record with one trade and a 100 percent win rate. -/
theorem monthly_records_valid_witness :
    ({ month := monthKey (mkDate 0), profit := 2, trades := 1, winRate := 100 }
        : MonthlyPerformance) ∈ calculateMonthlyPerformance [sampleWin]
    ∧ 1 ≤ ({ month := monthKey (mkDate 0), profit := 2, trades := 1, winRate := 100 }
        : MonthlyPerformance).trades := by
  have hm : ({ month := monthKey (mkDate 0), profit := 2, trades := 1, winRate := 100 }
      : MonthlyPerformance) ∈ calculateMonthlyPerformance [sampleWin] := by
    simp only [calculateMonthlyPerformance, List.foldl_cons, List.foldl_nil, mpInsert,
      List.insertionSort, List.orderedInsert, List.map_cons, List.map_nil, sampleWin]
    norm_num
  exact ⟨hm, (monthly_records_valid [sampleWin] _ hm).1⟩

end TradingJournal

namespace TradingJournal

/-- Recognizer of the consecutive-loss warning message. -/
def isConsecLoss : Insight → Bool
  | Insight.consecLossWarning _ => true
  | _ => false

/-- Three losing trades on consecutive dates. -/
def lossDayOne : Trade := { sampleLoss with id := "l1", date := mkDate 10 }

/-- Second of the three losing trades. -/
def lossDayTwo : Trade := { sampleLoss with id := "l2", date := mkDate 11 }

/-- Third of the three losing trades. -/
def lossDayThree : Trade := { sampleLoss with id := "l3", date := mkDate 12 }

/-- A three-loss collection used to instantiate the insight gate. -/
def threeLosses : List Trade := [lossDayOne, lossDayTwo, lossDayThree]

/-- Rule 1 never emits the consecutive-loss warning. -/
lemma ruleBestSession_countP (trades : List Trade) (stats : TradingStats) :
    (ruleBestSession trades stats).countP isConsecLoss = 0 := by
  unfold ruleBestSession
  split
  · split
    · split <;> rfl
    · rfl
  · rfl

/-- Rule 2 never emits the consecutive-loss warning. -/
lemma ruleWorstSession_countP (trades : List Trade) (stats : TradingStats) :
    (ruleWorstSession trades stats).countP isConsecLoss = 0 := by
  unfold ruleWorstSession
  split
  · split
    · split <;> rfl
    · rfl
  · rfl

/-- Rule 3 never emits the consecutive-loss warning. -/
lemma ruleBestSetup_countP (trades : List Trade) (stats : TradingStats) :
    (ruleBestSetup trades stats).countP isConsecLoss = 0 := by
  unfold ruleBestSetup
  split
  · split
    · split <;> rfl
    · rfl
  · rfl

/-- Rule 4 never emits the consecutive-loss warning. -/
lemma ruleRisk_countP (trades : List Trade) :
    (ruleRisk trades).countP isConsecLoss = 0 := by
  unfold ruleRisk
  dsimp only
  split <;> rfl

/-- Rules 6 and 7 never emit the consecutive-loss warning. -/
lemma ruleWinRate_countP (trades : List Trade) (stats : TradingStats) :
    (ruleWinRate trades stats).countP isConsecLoss = 0 := by
  unfold ruleWinRate
  split
  · rfl
  · split <;> rfl

/-- Rule 8 never emits the consecutive-loss warning. -/
lemma ruleProfitFactor_countP (stats : TradingStats) :
    (ruleProfitFactor stats).countP isConsecLoss = 0 := by
  unfold ruleProfitFactor
  split <;> rfl

/-- Rule 9 never emits the consecutive-loss warning. -/
lemma ruleEmotion_countP (trades : List Trade) :
    (ruleEmotion trades).countP isConsecLoss = 0 := by
  unfold ruleEmotion
  dsimp only
  repeat' split
  all_goals rfl

/-- Rule 5 emits exactly one consecutive-loss warning when both gates hold
and none otherwise. -/
lemma ruleConsecLoss_countP (trades : List Trade) (stats : TradingStats) :
    (ruleConsecLoss trades stats).countP isConsecLoss
      = if 3 ≤ stats.maxConsecutiveLosses ∧ 3 ≤ recentLossCount trades then 1 else 0 := by
  unfold ruleConsecLoss
  by_cases h1 : 3 ≤ stats.maxConsecutiveLosses
  · rw [if_pos h1]
    by_cases h2 : 3 ≤ recentLossCount trades
    · rw [if_pos h2, if_pos ⟨h1, h2⟩]
      rfl
    · rw [if_neg h2, if_neg (fun hc => h2 hc.2)]
      rfl
  · rw [if_neg h1, if_neg (fun hc => h1 hc.1)]
    rfl

/-- C7: on a non-empty collection with its computed statistics, the insight
list holds exactly one consecutive-loss warning when maxConsecutiveLosses is
at least 3 and at least 3 of the 5 most-recently-dated trades are losses,
and none otherwise; no other rule can contribute that warning. -/
theorem consecutive_loss_warning_gate (trades : List Trade) (h : trades ≠ []) :
    (generateInsights trades (calculateStats trades)).countP isConsecLoss
      = if 3 ≤ (calculateStats trades).maxConsecutiveLosses
            ∧ 3 ≤ recentLossCount trades
        then 1 else 0 := by
  unfold generateInsights
  rw [if_neg h]
  simp only [List.countP_append]
  rw [ruleBestSession_countP, ruleWorstSession_countP, ruleBestSetup_countP,
    ruleRisk_countP, ruleConsecLoss_countP, ruleWinRate_countP,
    ruleProfitFactor_countP, ruleEmotion_countP]
  simp

/-- C7 witness: the gate applied to a concrete three-loss collection. -/
theorem consecutive_loss_warning_gate_witness :
    threeLosses ≠ []
    ∧ (generateInsights threeLosses (calculateStats threeLosses)).countP isConsecLoss
      = if 3 ≤ (calculateStats threeLosses).maxConsecutiveLosses
            ∧ 3 ≤ recentLossCount threeLosses
        then 1 else 0 :=
  ⟨by simp [threeLosses], consecutive_loss_warning_gate threeLosses (by simp [threeLosses])⟩

/-- C8: on the empty collection generateInsights returns exactly the
single onboarding prompt, whatever statistics record is passed; no other
rule is evaluated. -/
theorem empty_insights (stats : TradingStats) :
    generateInsights [] stats = [Insight.onboarding] := by
  rfl

end TradingJournal
